import Mathlib

/-
Verification development for the denite-git `gitstatus` source
(rplugin/python3/denite/source/gitstatus.py).

The Python module is shallowly embedded below.  Python strings are modelled
as lists of characters (`Str`), Python exceptions as values of `PyErr`
carried in `Except`, the filesystem and the subprocess layer as explicit
oracle values, and the editor-facing actions as lists of `Effect` values
describing the external commands they issue.
-/

namespace DeniteGit

/-- Python strings are modelled as lists of characters. -/
abbrev Str := List Char

/-- The Python exceptions that the embedded code can raise or inspect:
`IndexError` from out-of-range string indexing, `KeyError` from a failed
dict lookup, `FileNotFoundError` from starting a nonexistent executable,
`subprocess.CalledProcessError`, and the `ValueError` that `shlex.split`
raises on a malformed command string. -/
inductive PyErr where
  | indexError : PyErr
  | keyError : Char → PyErr
  | fileNotFoundError : PyErr
  | calledProcessError : PyErr
  | valueError : PyErr
deriving DecidableEq, Repr

/-- True when an `Except` value is a normal (non-raising) result. -/
def exceptIsOk {ε α : Type} : Except ε α → Bool
  | Except.ok _ => true
  | Except.error _ => false

/-- Model of `STATUS_MAP` (gitstatus.py lines 16-25): the fixed table from a
porcelain status character to its display symbol and description.  A lookup
of a character outside the table is `none` (a Python `KeyError`). -/
def STATUS_MAP (c : Char) : Option (Char × Str) :=
  if c = ' ' then some (' ', ("").toList)
  else if c = 'M' then some ('~', ("modified").toList)
  else if c = 'A' then some ('+', ("added").toList)
  else if c = 'D' then some ('-', ("deleted").toList)
  else if c = 'R' then some ('→', ("renamed").toList)
  else if c = 'C' then some ('C', ("copied").toList)
  else if c = 'U' then some ('U', ("updated").toList)
  else if c = '?' then some ('?', ("untracked").toList)
  else none

/-- Python string indexing `s[i]`: raises `IndexError` out of range. -/
def strIndex (s : Str) (i : Nat) : Except PyErr Char :=
  match s[i]? with
  | some c => Except.ok c
  | none => Except.error PyErr.indexError

/-- Python dict indexing `STATUS_MAP[c]`: raises `KeyError` when absent. -/
def statusLookup (c : Char) : Except PyErr (Char × Str) :=
  match STATUS_MAP c with
  | some v => Except.ok v
  | none => Except.error (PyErr.keyError c)

/-- Python `str.ljust(n)`: pad on the right with spaces up to width `n`. -/
def ljust (s : Str) (n : Nat) : Str :=
  s ++ List.replicate (n - s.length) ' '

/-- Model of `os.path.join(a, b)` for two components (posixpath semantics):
an absolute second component replaces the first; otherwise a separator is
inserted unless the first part is empty or already ends with one. -/
def pyJoin (a b : Str) : Str :=
  if b.head? = some '/' then b
  else if a = [] ∨ a.getLast? = some '/' then a ++ b
  else a ++ '/' :: b

/-- The candidate record built by `_parse_line` (gitstatus.py lines 46-52). -/
structure Candidate where
  word : Str
  action__path : Str
  source__root : Str
  source__staged : Bool
  source__tree : Bool
deriving DecidableEq, Repr

/-- Model of `_parse_line` (gitstatus.py lines 38-52).  Mirrors the Python
evaluation order: the path join never raises; `line[0]` can raise
`IndexError`; `STATUS_MAP[line[0]]` can raise `KeyError`; then the same for
`line[1]`.  The slice `line[3:]` is total (`List.drop`), as in Python.
The two flags are computed from the mapped display symbols, exactly as in
the source (`index_symbol not in [' ', '?']`). -/
def _parse_line (line root : Str) : Except PyErr Candidate :=
  let path := pyJoin root (line.drop 3)
  match strIndex line 0 with
  | Except.error e => Except.error e
  | Except.ok c0 =>
    match statusLookup c0 with
    | Except.error e => Except.error e
    | Except.ok (index_symbol, index_desc) =>
      match strIndex line 1 with
      | Except.error e => Except.error e
      | Except.ok c1 =>
        match statusLookup c1 with
        | Except.error e => Except.error e
        | Except.ok (tree_symbol, tree_desc0) =>
          let tree_desc := if tree_desc0 = index_desc then [] else tree_desc0
          Except.ok
            { word := index_symbol :: tree_symbol :: ' ' ::
                (ljust index_desc 12 ++ ' ' :: (ljust tree_desc 12 ++ ' ' :: line.drop 3)),
              action__path := path,
              source__root := root,
              source__staged := !(index_symbol == ' ' || index_symbol == '?'),
              source__tree := !(tree_symbol == ' ' || tree_symbol == '?') }

/-- ASCII whitespace as matched by the regex class in `EMPTY_LINE`
(gitstatus.py line 15). -/
def isPySpace (c : Char) : Bool :=
  c == ' ' || c == '\t' || c == '\n' || c == '\r' || c == '\x0b' || c == '\x0c'

/-- Model of `EMPTY_LINE.fullmatch(line)` with the pattern of whitespace-only
lines: every character of the line is whitespace (true for the empty line). -/
def isBlank (line : Str) : Bool := line.all isPySpace

/-- The candidate-building loop of `Source.gather_candidates`
(gitstatus.py lines 91-98): skip blank lines, parse the rest, and let any
per-line exception abort the whole listing. -/
def parse_lines (lines : List Str) (root : Str) : Except PyErr (List Candidate) :=
  match lines with
  | [] => Except.ok []
  | l :: ls =>
    if isBlank l = true then parse_lines ls root
    else
      match _parse_line l root with
      | Except.error e => Except.error e
      | Except.ok c =>
        match parse_lines ls root with
        | Except.error e => Except.error e
        | Except.ok cs => Except.ok (c :: cs)

/-- Outcome of attempting to run one external process: either the OS cannot
start it at all (Python raises `FileNotFoundError`), or it runs to
completion with a return code and combined stdout+stderr text. -/
inductive SubprocessOutcome where
  | startFailure : SubprocessOutcome
  | completed : Int → Str → SubprocessOutcome
deriving DecidableEq, Repr

/-- Model of `subprocess.run(commands, cwd=..., stdout=PIPE, stderr=STDOUT)`
as called in gitstatus.py lines 56-59.  `check` is not set, so a completed
process is returned normally whatever its exit status; only a start failure
raises (`FileNotFoundError`).  `CalledProcessError` is never raised here. -/
def subprocess_run (outcome : SubprocessOutcome) : Except PyErr (Int × Str) :=
  match outcome with
  | SubprocessOutcome.startFailure => Except.error PyErr.fileNotFoundError
  | SubprocessOutcome.completed code out => Except.ok (code, out)

/-- Python `str.split(sep)` for a one-character separator keeps empty pieces
and always yields at least one piece. -/
def splitNl : Str → List Str
  | [] => [[]]
  | c :: rest =>
    if c = '\n' then [] :: splitNl rest
    else
      match splitNl rest with
      | [] => [[c]]
      | p :: ps => (c :: p) :: ps

/-- Model of `run_command` (gitstatus.py lines 54-63): call `subprocess.run`,
catch only `CalledProcessError` (returning `[]`), and otherwise decode and
split the captured output on newlines. -/
def run_command (outcome : SubprocessOutcome) : Except PyErr (List Str) :=
  match subprocess_run outcome with
  | Except.error e =>
    if e = PyErr.calledProcessError then Except.ok [] else Except.error e
  | Except.ok (_, out) => Except.ok (splitNl out)

/-- The whole of `Source.gather_candidates` (gitstatus.py lines 84-98):
without a root the listing is empty; otherwise the status subprocess output
is split into lines and fed through the blank-skipping parse loop. -/
def gather_candidates (root : Option Str) (proc : SubprocessOutcome) :
    Except PyErr (List Candidate) :=
  match root with
  | none => Except.ok []
  | some r =>
    match run_command proc with
    | Except.error e => Except.error e
    | Except.ok lines => parse_lines lines r

/-- The filesystem facts `_find_root` consults: whether a directory is a
mount point (`os.path.ismount`) and whether it contains a `.git`
subdirectory (`os.path.isdir(os.path.join(path, '.git'))`).  Directories
are normalized absolute paths, represented by their component lists; the
filesystem root `/` is the empty list. -/
structure FileSystem where
  ismount : List Str → Bool
  hasGitDir : List Str → Bool

/-- Fuel-indexed loop body of `_find_root` (gitstatus.py lines 28-35).
Each iteration checks, in source order: the stop condition
(`path == '/' or os.path.ismount(path)`), then the `.git` probe, and
otherwise moves to `os.path.dirname(path)` (dropping the last component).
The fuel only makes the recursion structural; `_find_root` supplies one
unit more than the path length, which the loop can never exhaust. -/
def find_root_go (fs : FileSystem) : Nat → List Str → Option (List Str)
  | 0, _ => none
  | Nat.succ n, p =>
    match p with
    | [] => none
    | _ :: _ =>
      if fs.ismount p then none
      else if fs.hasGitDir p then some p
      else find_root_go fs n p.dropLast

/-- Model of `_find_root` (gitstatus.py lines 28-35). -/
def _find_root (fs : FileSystem) (p : List Str) : Option (List Str) :=
  find_root_go fs (p.length + 1) p

/-- Fuel-indexed chain of the directories the upward walk can visit. -/
def ancestors_go : Nat → List Str → List (List Str)
  | 0, p => [p]
  | Nat.succ n, p =>
    match p with
    | [] => [[]]
    | _ :: _ => p :: ancestors_go n p.dropLast

/-- The ancestor chain of a directory, nearest first, ending at `/`. -/
def ancestors (p : List Str) : List (List Str) :=
  ancestors_go (p.length + 1) p

/-- The stop condition of the upward walk: the filesystem root or a mount
boundary. -/
def stopDir (fs : FileSystem) (p : List Str) : Bool :=
  p.isEmpty || fs.ismount p

/-- Specification-side description of the root lookup, used to state the
amended root-discovery claim: scan the ancestor chain nearest-first for the
first directory that is either a stop directory (the root `/` or a mount
boundary) or contains `.git`; a stop directory found first (the stop check
comes before the `.git` check) yields no root, even if it also contains
`.git`. -/
def findRootSpec (fs : FileSystem) (p : List Str) : Option (List Str) :=
  match (ancestors p).find? (fun a => stopDir fs a || fs.hasGitDir a) with
  | some a => if stopDir fs a then none else some a
  | none => none

/-- Split a string on `/`, keeping empty pieces (Python `s.split('/')`). -/
def splitOnSlash : Str → List Str
  | [] => [[]]
  | c :: rest =>
    if c = '/' then [] :: splitOnSlash rest
    else
      match splitOnSlash rest with
      | [] => [[c]]
      | p :: ps => (c :: p) :: ps

/-- One step of posixpath normalization over an absolute path's pieces:
empty pieces and `.` are dropped, `..` pops the last kept component (at the
root it is simply dropped), anything else is kept. -/
def normStep (acc : List Str) (c : Str) : List Str :=
  if c = [] ∨ c = ['.'] then acc
  else if c = ['.', '.'] then acc.dropLast
  else acc ++ [c]

/-- The normalized component list of an absolute path, as produced inside
`os.path.relpath` by `abspath` + split + filter (posixpath semantics for an
absolute input). -/
def normComps (s : Str) : List Str :=
  (splitOnSlash s).foldl normStep []

/-- Length of the longest common prefix of two component lists
(`os.path.commonprefix` applied to the start and path component lists). -/
def commonPrefixLen : List Str → List Str → Nat
  | x :: xs, y :: ys => if x = y then commonPrefixLen xs ys + 1 else 0
  | _, _ => 0

/-- Join components with a separator character (`sep.join(rel_list)`). -/
def strIntercalate (sep : Char) : List Str → Str
  | [] => []
  | [x] => x
  | x :: y :: rest => x ++ sep :: strIntercalate sep (y :: rest)

/-- Model of `os.path.relpath(path, start)` for absolute inputs (the only
way the source calls it): normalize both paths into component lists, drop
the common prefix, climb with `..` for what remains of `start`, and append
the remainder of `path`; an empty result is `.`. -/
def pyRelpath (path start : Str) : Str :=
  let pl := normComps path
  let sl := normComps start
  let i := commonPrefixLen sl pl
  let rel := List.replicate (sl.length - i) (("..").toList) ++ pl.drop i
  if rel = [] then (".").toList else strIntercalate '/' rel

/-- The externally visible operations a `Kind` action performs, in order:
running an external command via `run_command` (argument vector plus working
directory), prompting the user, issuing an editor command, or calling the
editor's `delete()` on a path. -/
inductive Effect where
  | runCmd : List Str → Str → Effect
  | prompt : Str → Effect
  | vimCommand : Str → Effect
  | vimDelete : Str → Effect
deriving DecidableEq, Repr

/-- The removal strategy probed once in `Kind.__init__`
(gitstatus.py lines 109-115): the `:Rm` editor command, the `rmtrash`
helper, or the editor's plain `delete()`. -/
inductive RemoveMode where
  | rm : RemoveMode
  | rmtrash : RemoveMode
  | delete : RemoveMode
deriving DecidableEq, Repr

/-- The whitespace characters `shlex.split` splits on
(CPython `shlex.whitespace`). -/
def isShWS (c : Char) : Bool :=
  c == ' ' || c == '\t' || c == '\r' || c == '\n'

/-- Lexer states of CPython `shlex.read_token` in POSIX mode: between
tokens (state " "), inside an unquoted word (state "a"), inside a quoted
section (state = the quote character), after a backslash outside quotes
(escapedstate "a"), and after a backslash inside double quotes
(escapedstate = the quote character). -/
inductive ShlexState where
  | ws : ShlexState
  | word : ShlexState
  | quote : Char → ShlexState
  | escape : ShlexState
  | escapeQ : Char → ShlexState
deriving DecidableEq, Repr

/-- Model of CPython `shlex.read_token` iterated over the whole input, in
the exact configuration `shlex.split` uses (posix mode, whitespace_split,
no comments).  `tok` is the token accumulated so far and `quoted` records
whether it came (partly) from a quoted section, so that an empty quoted
token (for example from a bare pair of quotes) is still emitted.  The quote
characters are the single and the double quote; a backslash escapes the
next character outside quotes, and inside double quotes it escapes only a
backslash or the double quote, otherwise staying in the token; end of
input inside a quote ("No closing quotation") or directly after a
backslash ("No escaped character") raises `ValueError`. -/
def shlexAux : ShlexState → Str → Bool → Str → Except PyErr (List Str)
  | ShlexState.ws, tok, quoted, [] =>
    if tok = [] ∧ quoted = false then Except.ok [] else Except.ok [tok]
  | ShlexState.ws, tok, quoted, c :: rest =>
    if isShWS c then
      if tok = [] ∧ quoted = false then shlexAux ShlexState.ws [] false rest
      else
        match shlexAux ShlexState.ws [] false rest with
        | Except.error e => Except.error e
        | Except.ok toks => Except.ok (tok :: toks)
    else if c = '\\' then shlexAux ShlexState.escape tok quoted rest
    else if c = '\'' ∨ c = '"' then shlexAux (ShlexState.quote c) tok true rest
    else shlexAux ShlexState.word (tok ++ [c]) quoted rest
  | ShlexState.word, tok, quoted, [] =>
    if tok = [] ∧ quoted = false then Except.ok [] else Except.ok [tok]
  | ShlexState.word, tok, quoted, c :: rest =>
    if isShWS c then
      if tok = [] ∧ quoted = false then shlexAux ShlexState.ws [] false rest
      else
        match shlexAux ShlexState.ws [] false rest with
        | Except.error e => Except.error e
        | Except.ok toks => Except.ok (tok :: toks)
    else if c = '\\' then shlexAux ShlexState.escape tok quoted rest
    else if c = '\'' ∨ c = '"' then shlexAux (ShlexState.quote c) tok true rest
    else shlexAux ShlexState.word (tok ++ [c]) quoted rest
  | ShlexState.quote _, _, _, [] => Except.error PyErr.valueError
  | ShlexState.quote qc, tok, quoted, c :: rest =>
    if c = qc then shlexAux ShlexState.word tok quoted rest
    else if qc = '"' ∧ c = '\\' then shlexAux (ShlexState.escapeQ qc) tok quoted rest
    else shlexAux (ShlexState.quote qc) (tok ++ [c]) quoted rest
  | ShlexState.escape, _, _, [] => Except.error PyErr.valueError
  | ShlexState.escape, tok, quoted, c :: rest =>
    shlexAux ShlexState.word (tok ++ [c]) quoted rest
  | ShlexState.escapeQ _, _, _, [] => Except.error PyErr.valueError
  | ShlexState.escapeQ qc, tok, quoted, c :: rest =>
    if c = '\\' ∨ c = qc then shlexAux (ShlexState.quote qc) (tok ++ [c]) quoted rest
    else shlexAux (ShlexState.quote qc) (tok ++ '\\' :: [c]) quoted rest

/-- Model of `shlex.split(s)` as called in `Kind.action_reset`: run the
POSIX lexer from the between-tokens state on the whole string. -/
def shlex_split (s : Str) : Except PyErr (List Str) :=
  shlexAux ShlexState.ws [] false s

/-- Characters `shlex.split` treats specially: its whitespace, the escape
character and the two quote characters. -/
def isShlexMeta (c : Char) : Bool :=
  isShWS c || c == '\\' || c == '\'' || c == '"'

/-- Per-target body of `Kind.action_reset` (gitstatus.py lines 159-184):
the effects performed for one target, paired with the exception that
`shlex.split` raises on a malformed command string (`none` when the target
is processed to completion).  Effects that happen before the exception
(the prompt) are kept; the trailing `checktime` is only reached when no
exception occurs.  `response` is what `util.input` would return for the
reset-vs-checkout prompt (only consulted in the ambiguous branch); `cwd`
is the editor's current buffer directory and `remove` the probed removal
strategy. -/
def action_reset_target (remove : RemoveMode) (cwd response : Str)
    (t : Candidate) : List Effect × Option PyErr :=
  let path := pyRelpath t.action__path t.source__root
  if t.source__tree && t.source__staged then
    if response = ("c").toList then
      match shlex_split (("git checkout -- ").toList ++ path) with
      | Except.error e =>
        ([Effect.prompt (("Select action reset or checkout [r/c]").toList)], some e)
      | Except.ok args =>
        ([Effect.prompt (("Select action reset or checkout [r/c]").toList),
          Effect.runCmd args t.source__root,
          Effect.vimCommand (("checktime").toList)], none)
    else if response = ("r").toList then
      match shlex_split (("git reset HEAD -- ").toList ++ path) with
      | Except.error e =>
        ([Effect.prompt (("Select action reset or checkout [r/c]").toList)], some e)
      | Except.ok args =>
        ([Effect.prompt (("Select action reset or checkout [r/c]").toList),
          Effect.runCmd args t.source__root,
          Effect.vimCommand (("checktime").toList)], none)
    else
      ([Effect.prompt (("Select action reset or checkout [r/c]").toList),
        Effect.vimCommand (("checktime").toList)], none)
  else if t.source__tree then
    match shlex_split (("git checkout -- ").toList ++ path) with
    | Except.error e => ([], some e)
    | Except.ok args =>
      ([Effect.runCmd args t.source__root,
        Effect.vimCommand (("checktime").toList)], none)
  else if t.source__staged then
    match shlex_split (("git reset HEAD -- ").toList ++ path) with
    | Except.error e => ([], some e)
    | Except.ok args =>
      ([Effect.runCmd args t.source__root,
        Effect.vimCommand (("checktime").toList)], none)
  else
    ((match remove with
      | RemoveMode.rm =>
        Effect.vimCommand (("Rm ").toList ++ pyRelpath t.action__path cwd)
      | RemoveMode.rmtrash =>
        Effect.runCmd [("rmtrash").toList, t.action__path] t.source__root
      | RemoveMode.delete => Effect.vimDelete t.action__path)
     :: [Effect.vimCommand (("checktime").toList)], none)

/-- Model of `Kind.action_reset`'s loop: the targets are processed in
order, and an exception raised while handling one target aborts the rest
of the loop. -/
def action_reset (remove : RemoveMode) (cwd response : Str) :
    List Candidate → List Effect × Option PyErr
  | [] => ([], none)
  | t :: ts =>
    match action_reset_target remove cwd response t with
    | (effs, some e) => (effs, some e)
    | (effs, none) =>
      match action_reset remove cwd response ts with
      | (effs2, r) => (effs ++ effs2, r)

/-- Model of `Kind.action_add` (gitstatus.py lines 125-131): build
`['git', 'add']` plus each target's path made relative to the first
target's root, and run it there.  An empty selection would raise
`IndexError` in Python (`targets[0]`), modelled as `none`. -/
def action_add (targets : List Candidate) : Option (List Effect) :=
  match targets with
  | [] => none
  | t0 :: _ =>
    some [Effect.runCmd
      (("git").toList :: ("add").toList ::
        targets.map (fun t => pyRelpath t.action__path t0.source__root))
      t0.source__root]

/-- Model of `Kind.action_patch` (gitstatus.py lines 117-123): issue the
editor command `terminal git add <relpaths> --patch`. -/
def action_patch (targets : List Candidate) : Option (List Effect) :=
  match targets with
  | [] => none
  | t0 :: _ =>
    some [Effect.vimCommand
      (("terminal git add ").toList ++
        strIntercalate ' '
          (targets.map (fun t => pyRelpath t.action__path t0.source__root)) ++
        (" --patch").toList)]

lemma ancestors_go_congr :
    ∀ (n m : Nat) (p : List Str), p.length < n → p.length < m →
      ancestors_go n p = ancestors_go m p := by
  intro n
  induction n with
  | zero => intro m p h _; exact absurd h (Nat.not_lt_zero _)
  | succ n ih =>
    intro m p hn hm
    match m, p with
    | 0, p => exact absurd hm (Nat.not_lt_zero _)
    | Nat.succ m, [] => rfl
    | Nat.succ m, x :: xs =>
      simp only [ancestors_go]
      have h1 : (x :: xs).dropLast.length < n := by
        simp only [List.length_dropLast, List.length_cons] at *
        omega
      have h2 : (x :: xs).dropLast.length < m := by
        simp only [List.length_dropLast, List.length_cons] at *
        omega
      rw [ih m (x :: xs).dropLast h1 h2]

lemma ancestors_cons (x : Str) (xs : List Str) :
    ancestors (x :: xs) = (x :: xs) :: ancestors (x :: xs).dropLast := by
  have h : ancestors (x :: xs)
      = (x :: xs) :: ancestors_go (xs.length + 1) (x :: xs).dropLast := rfl
  rw [h]
  congr 1
  exact ancestors_go_congr (xs.length + 1) ((x :: xs).dropLast.length + 1)
    (x :: xs).dropLast
    (by simp only [List.length_dropLast, List.length_cons]; omega)
    (Nat.lt_succ_self _)

lemma find_root_go_eq_spec (fs : FileSystem) :
    ∀ (n : Nat) (p : List Str), p.length < n →
      find_root_go fs n p = findRootSpec fs p := by
  intro n
  induction n with
  | zero => intro p h; exact absurd h (Nat.not_lt_zero _)
  | succ n ih =>
    intro p hp
    match p with
    | [] => rfl
    | x :: xs =>
      have hlen : (x :: xs).dropLast.length < n := by
        simp only [List.length_dropLast, List.length_cons] at *
        omega
      by_cases hm : fs.ismount (x :: xs) = true
      · have hL : find_root_go fs (n + 1) (x :: xs) = none := by
          simp [find_root_go, hm]
        have hstop : stopDir fs (x :: xs) = true := by simp [stopDir, hm]
        have hpred : (fun a => stopDir fs a || fs.hasGitDir a) (x :: xs) = true := by
          simp [hstop]
        have hR : findRootSpec fs (x :: xs) = none := by
          unfold findRootSpec
          rw [ancestors_cons, @List.find?_cons_of_pos _
            (fun a => stopDir fs a || fs.hasGitDir a) (x :: xs)
            (ancestors (x :: xs).dropLast) hpred]
          simp [hstop]
        rw [hL, hR]
      · by_cases hg : fs.hasGitDir (x :: xs) = true
        · have hL : find_root_go fs (n + 1) (x :: xs) = some (x :: xs) := by
            simp [find_root_go, hm, hg]
          have hstop : stopDir fs (x :: xs) = false := by simp [stopDir, hm]
          have hpred : (fun a => stopDir fs a || fs.hasGitDir a) (x :: xs) = true := by
            simp [hg]
          have hR : findRootSpec fs (x :: xs) = some (x :: xs) := by
            unfold findRootSpec
            rw [ancestors_cons, @List.find?_cons_of_pos _
              (fun a => stopDir fs a || fs.hasGitDir a) (x :: xs)
              (ancestors (x :: xs).dropLast) hpred]
            simp [hstop]
          rw [hL, hR]
        · have hL : find_root_go fs (n + 1) (x :: xs)
              = find_root_go fs n (x :: xs).dropLast := by
            simp [find_root_go, hm, hg]
          have hpred : ¬((fun a => stopDir fs a || fs.hasGitDir a) (x :: xs) = true) := by
            simp [stopDir, hm, hg]
          rw [hL, ih _ hlen]
          unfold findRootSpec
          rw [ancestors_cons, @List.find?_cons_of_neg _
            (fun a => stopDir fs a || fs.hasGitDir a) (x :: xs)
            (ancestors (x :: xs).dropLast) hpred]

lemma find_root_eq_spec (fs : FileSystem) (p : List Str) :
    _find_root fs p = findRootSpec fs p :=
  find_root_go_eq_spec fs (p.length + 1) p (Nat.lt_succ_self _)

/-- C4 (amended): `_find_root` scans the ancestor chain nearest-first and
returns the first ancestor (including the start directory) that contains
`.git`, returning absent when it reaches the filesystem root `/` or a mount
boundary first; the stop check precedes the `.git` check, so a directory
that is `/` or a mount point yields absent even when it contains `.git`. -/
theorem find_root_matches_nearest_scan (fs : FileSystem) (p : List Str) :
    _find_root fs p = findRootSpec fs p :=
  find_root_eq_spec fs p

/-- C4 counterexample: a start directory that is a mount point and itself
contains `.git`.  The claim requires `_find_root` to return it; the code
returns absent because the mount/root check comes before the `.git` check
(gitstatus.py lines 30-34). -/
theorem find_root_mount_with_git_counterexample :
    _find_root
      { ismount := fun p => decide (p = [("a").toList]),
        hasGitDir := fun p => decide (p = [("a").toList]) }
      [("a").toList] = none ∧
    FileSystem.hasGitDir
      { ismount := fun p => decide (p = [("a").toList]),
        hasGitDir := fun p => decide (p = [("a").toList]) }
      [("a").toList] = true ∧
    FileSystem.ismount
      { ismount := fun p => decide (p = [("a").toList]),
        hasGitDir := fun p => decide (p = [("a").toList]) }
      [("a").toList] = true :=
  ⟨rfl, by decide, by decide⟩

/-- C6: when no directory in the ancestor chain contains `.git`, the upward
walk terminates (the embedded loop is total: each iteration strictly
shortens the path and `/` stops it) and returns absent. -/
theorem find_root_none_without_git (fs : FileSystem) (p : List Str)
    (h : ∀ a ∈ ancestors p, fs.hasGitDir a = false) :
    _find_root fs p = none := by
  rw [find_root_eq_spec]
  unfold findRootSpec
  cases hf : (ancestors p).find? (fun a => stopDir fs a || fs.hasGitDir a) with
  | none => rfl
  | some a =>
    have hmem : a ∈ ancestors p := List.mem_of_find?_eq_some hf
    have hpred := List.find?_some hf
    have hng := h a hmem
    rw [hng] at hpred
    simp only [Bool.or_false] at hpred
    simp [hpred]

/-- C6 witness: a concrete filesystem with no `.git` anywhere. -/
theorem find_root_none_without_git_witness :
    _find_root { ismount := fun _ => false, hasGitDir := fun _ => false }
      [("a").toList, ("b").toList] = none :=
  find_root_none_without_git _ _ (by decide)

lemma splitNl_ne_nil (s : Str) : splitNl s ≠ [] := by
  match s with
  | [] => simp [splitNl]
  | c :: rest =>
    simp only [splitNl]
    by_cases h : c = '\n'
    · simp [h]
    · simp only [h, if_false]
      cases hs : splitNl rest <;> simp

/-- C3 (amended): `run_command` propagates a start failure (the exception
`subprocess.run` raises when the executable cannot be launched), returns
the completed process's combined output split on newlines whatever the exit
status, and can never return the empty list: the
`except CalledProcessError` branch is unreachable because `subprocess.run`
is called without `check`. -/
theorem run_command_never_empty :
    (∀ o : SubprocessOutcome, run_command o ≠ Except.ok []) ∧
    run_command SubprocessOutcome.startFailure = Except.error PyErr.fileNotFoundError ∧
    (∀ (code : Int) (out : Str),
      run_command (SubprocessOutcome.completed code out) = Except.ok (splitNl out)) := by
  refine ⟨?_, rfl, fun code out => rfl⟩
  intro o h
  match o with
  | SubprocessOutcome.startFailure => simp [run_command, subprocess_run] at h
  | SubprocessOutcome.completed code out =>
    have hout : run_command (SubprocessOutcome.completed code out) = Except.ok (splitNl out) := rfl
    rw [hout] at h
    have hne := splitNl_ne_nil out
    simp only [Except.ok.injEq] at h
    exact hne h

/-- C3 counterexample: a failed start propagates `FileNotFoundError`
instead of returning an empty sequence, and a process that exits with
status 1 has its output returned rather than an empty sequence. -/
theorem run_command_counterexample :
    run_command SubprocessOutcome.startFailure = Except.error PyErr.fileNotFoundError ∧
    run_command (SubprocessOutcome.completed 1 (("boom").toList)) =
      Except.ok [("boom").toList] :=
  ⟨rfl, rfl⟩

/-- C3 witness: the amended theorem evaluated at concrete outcomes. -/
theorem run_command_never_empty_witness :
    run_command (SubprocessOutcome.completed 0 (("").toList)) ≠ Except.ok [] ∧
    run_command (SubprocessOutcome.completed 2 (("x").toList)) =
      Except.ok (splitNl (("x").toList)) :=
  ⟨run_command_never_empty.1 _, run_command_never_empty.2.2 2 (("x").toList)⟩

lemma STATUS_MAP_char_cases (c : Char) (h : (STATUS_MAP c).isSome = true) :
    c = ' ' ∨ c = 'M' ∨ c = 'A' ∨ c = 'D' ∨ c = 'R' ∨ c = 'C' ∨ c = 'U' ∨ c = '?' := by
  by_contra hc
  push_neg at hc
  obtain ⟨h1, h2, h3, h4, h5, h6, h7, h8⟩ := hc
  simp only [STATUS_MAP, if_neg h1, if_neg h2, if_neg h3, if_neg h4, if_neg h5,
    if_neg h6, if_neg h7, if_neg h8, Option.isSome_none] at h
  exact Bool.false_ne_true h

lemma symbol_flag_eq (c sym : Char) (desc : Str) (h : STATUS_MAP c = some (sym, desc)) :
    (!(sym == ' ' || sym == '?')) = (!(c == ' ' || c == '?')) := by
  have hs : (STATUS_MAP c).isSome = true := by rw [h]; rfl
  rcases STATUS_MAP_char_cases c hs with rfl | rfl | rfl | rfl | rfl | rfl | rfl | rfl <;>
    (simp only [STATUS_MAP] at h
     simp only [reduceIte, Option.some.injEq, Prod.mk.injEq] at h
     obtain ⟨rfl, rfl⟩ := h
     decide)

/-- C1: for a parsed line whose two raw status characters are both in the
fixed table, the staged flag equals "index code is neither space nor `?`"
and the tree flag equals "tree code is neither space nor `?`", even though
the code computes both flags from the mapped display symbols. -/
theorem parse_line_flags_from_raw_codes (line root : Str) (c0 c1 : Char)
    (cand : Candidate)
    (h0 : strIndex line 0 = Except.ok c0) (h1 : strIndex line 1 = Except.ok c1)
    (hm0 : (STATUS_MAP c0).isSome = true) (hm1 : (STATUS_MAP c1).isSome = true)
    (hp : _parse_line line root = Except.ok cand) :
    cand.source__staged = (!(c0 == ' ' || c0 == '?')) ∧
    cand.source__tree = (!(c1 == ' ' || c1 == '?')) := by
  obtain ⟨⟨s0, d0⟩, hs0⟩ := Option.isSome_iff_exists.mp hm0
  obtain ⟨⟨s1, d1⟩, hs1⟩ := Option.isSome_iff_exists.mp hm1
  have hl0 : statusLookup c0 = Except.ok (s0, d0) := by unfold statusLookup; rw [hs0]
  have hl1 : statusLookup c1 = Except.ok (s1, d1) := by unfold statusLookup; rw [hs1]
  unfold _parse_line at hp
  rw [h0] at hp
  dsimp only at hp
  rw [hl0] at hp
  dsimp only at hp
  rw [h1] at hp
  dsimp only at hp
  rw [hl1] at hp
  dsimp only at hp
  simp only [Except.ok.injEq] at hp
  subst hp
  exact ⟨symbol_flag_eq c0 s0 d0 hs0, symbol_flag_eq c1 s1 d1 hs1⟩

/-- C1 witness: the line " M foo" has staged = false and tree = true. -/
theorem parse_line_flags_witness :
    Except.map Candidate.source__staged
      (_parse_line ((" M foo").toList) (("/r").toList)) =
      Except.ok (!((' ' : Char) == ' ' || (' ' : Char) == '?')) ∧
    Except.map Candidate.source__tree
      (_parse_line ((" M foo").toList) (("/r").toList)) =
      Except.ok (!(('M' : Char) == ' ' || ('M' : Char) == '?')) := by
  cases hp : _parse_line ((" M foo").toList) (("/r").toList) with
  | error e =>
    have hok : exceptIsOk (_parse_line ((" M foo").toList) (("/r").toList)) = true := by
      decide
    rw [hp] at hok
    simp [exceptIsOk] at hok
  | ok cand =>
    have hflags := parse_line_flags_from_raw_codes ((" M foo").toList) (("/r").toList)
      ' ' 'M' cand rfl rfl (by decide) (by decide) hp
    simp [Except.map, hflags.1, hflags.2]

/-- C5 counterexample: the two-character non-blank line "MM" is shorter than
3 characters yet parses successfully (Python's slice `line[3:]` is total),
yielding a truncated candidate whose path is the root joined with an empty
relative path. -/
theorem parse_line_short_line_counterexample :
    exceptIsOk (_parse_line (("MM").toList) (("/repo").toList)) = true ∧
    (("MM").toList).length < 3 ∧
    isBlank (("MM").toList) = false ∧
    Except.map Candidate.action__path (_parse_line (("MM").toList) (("/repo").toList)) =
      Except.ok (("/repo/").toList) :=
  ⟨by decide, by decide, by decide, rfl⟩

/-- C5 (amended): parsing a line succeeds exactly when the line has at least
two characters and both status characters are in the fixed table; hence a
line of length 0 or 1 signals an error (the Python IndexError from `line[1]`),
as does an unrecognized status character (KeyError), but a line of length
exactly 2 with two recognized codes parses successfully with an empty
relative path rather than erroring; and any per-line parse error of a
non-blank line fails the whole listing. -/
theorem parse_errors_characterization :
    (∀ line root : Str,
      exceptIsOk (_parse_line line root) = true ↔
        ∃ c0 c1 rest, line = c0 :: c1 :: rest ∧
          (STATUS_MAP c0).isSome = true ∧ (STATUS_MAP c1).isSome = true) ∧
    (∀ (lines : List Str) (root l : Str), l ∈ lines → isBlank l = false →
      exceptIsOk (_parse_line l root) = false →
      exceptIsOk (parse_lines lines root) = false) := by
  constructor
  · intro line root
    match line with
    | [] => simp [_parse_line, strIndex, exceptIsOk]
    | [c0] =>
      cases hm : STATUS_MAP c0 with
      | none => simp [_parse_line, strIndex, statusLookup, hm, exceptIsOk]
      | some v =>
        cases v with
        | mk s d => simp [_parse_line, strIndex, statusLookup, hm, exceptIsOk]
    | c0 :: c1 :: rest =>
      cases hm0 : STATUS_MAP c0 with
      | none => simp [_parse_line, strIndex, statusLookup, hm0, exceptIsOk]
      | some v0 =>
        cases v0 with
        | mk s0 d0 =>
          cases hm1 : STATUS_MAP c1 with
          | none => simp [_parse_line, strIndex, statusLookup, hm0, hm1, exceptIsOk]
          | some v1 =>
            cases v1 with
            | mk s1 d1 =>
              simp [_parse_line, strIndex, statusLookup, hm0, hm1, exceptIsOk]
              exact ⟨c0, c1, ⟨rfl, rfl⟩, by rw [hm0]; rfl, by rw [hm1]; rfl⟩
  · intro lines root l
    induction lines with
    | nil => intro hl; simp at hl
    | cons x xs ih =>
      intro hl hbl herr
      rcases List.mem_cons.mp hl with rfl | hl2
      · cases hpe : _parse_line l root with
        | error e => simp [parse_lines, hbl, hpe, exceptIsOk]
        | ok c => rw [hpe] at herr; simp [exceptIsOk] at herr
      · by_cases hbx : isBlank x = true
        · simp only [parse_lines, hbx, if_true]
          exact ih hl2 hbl herr
        · cases hpe : _parse_line x root with
          | error e => simp [parse_lines, hbx, hpe, exceptIsOk]
          | ok c =>
            have hrec := ih hl2 hbl herr
            cases hpl : parse_lines xs root with
            | error e => simp [parse_lines, hbx, hpe, hpl, exceptIsOk]
            | ok cs => rw [hpl] at hrec; simp [exceptIsOk] at hrec

/-- C5 witness: a listing containing the unrecognized-status line "AX f"
fails as a whole. -/
theorem parse_errors_witness :
    exceptIsOk (parse_lines [((" M a").toList), (("AX f").toList)] (("/r").toList))
      = false :=
  parse_errors_characterization.2 _ (("/r").toList) (("AX f").toList)
    (by decide) (by decide) (by decide)

lemma parse_lines_cons_blank (l : Str) (ls : List Str) (root : Str)
    (h : isBlank l = true) :
    parse_lines (l :: ls) root = parse_lines ls root := by
  simp [parse_lines, h]

lemma parse_lines_cons_nonblank (l : Str) (ls : List Str) (root : Str)
    (h : isBlank l = false) :
    parse_lines (l :: ls) root =
      match _parse_line l root with
      | Except.error e => Except.error e
      | Except.ok c =>
        match parse_lines ls root with
        | Except.error e => Except.error e
        | Except.ok cs => Except.ok (c :: cs) := by
  simp [parse_lines, h]

/-- C8: interspersed blank (empty or whitespace-only) lines do not change
the result of the listing loop: parsing any line sequence gives the same
result as parsing the sequence with all blank lines removed. -/
theorem parse_lines_blank_invariant (lines : List Str) (root : Str) :
    parse_lines lines root
      = parse_lines (lines.filter (fun l => !isBlank l)) root := by
  induction lines with
  | nil => rfl
  | cons x xs ih =>
    by_cases hb : isBlank x = true
    · have hf : List.filter (fun l => !isBlank l) (x :: xs)
          = List.filter (fun l => !isBlank l) xs := by
        simp [List.filter_cons, hb]
      rw [hf, parse_lines_cons_blank x xs root hb]
      exact ih
    · have hb2 : isBlank x = false := by rwa [Bool.not_eq_true] at hb
      have hf : List.filter (fun l => !isBlank l) (x :: xs)
          = x :: List.filter (fun l => !isBlank l) xs := by
        simp [List.filter_cons, hb2]
      rw [hf, parse_lines_cons_nonblank x xs root hb2,
        parse_lines_cons_nonblank x (List.filter (fun l => !isBlank l) xs) root hb2,
        ih]

/-- C10: a successful listing contains exactly one candidate per non-blank
line, in the same relative order: the blank-filtered line sequence and the
candidate sequence correspond pointwise, in order, through the parser. -/
theorem parse_lines_one_per_line (lines : List Str) (root : Str)
    (cs : List Candidate) (h : parse_lines lines root = Except.ok cs) :
    List.Forall₂ (fun l c => _parse_line l root = Except.ok c)
      (lines.filter (fun l => !isBlank l)) cs := by
  induction lines generalizing cs with
  | nil =>
    simp only [parse_lines, Except.ok.injEq] at h
    subst h
    simp
  | cons x xs ih =>
    by_cases hb : isBlank x = true
    · have hf : List.filter (fun l => !isBlank l) (x :: xs)
          = List.filter (fun l => !isBlank l) xs := by
        simp [List.filter_cons, hb]
      rw [parse_lines_cons_blank x xs root hb] at h
      rw [hf]
      exact ih cs h
    · have hb2 : isBlank x = false := by rwa [Bool.not_eq_true] at hb
      have hf : List.filter (fun l => !isBlank l) (x :: xs)
          = x :: List.filter (fun l => !isBlank l) xs := by
        simp [List.filter_cons, hb2]
      rw [parse_lines_cons_nonblank x xs root hb2] at h
      cases hpe : _parse_line x root with
      | error e => rw [hpe] at h; simp at h
      | ok c =>
        rw [hpe] at h
        cases hpl : parse_lines xs root with
        | error e => rw [hpl] at h; simp at h
        | ok cs2 =>
          rw [hpl] at h
          simp only [Except.ok.injEq] at h
          subst h
          rw [hf]
          exact List.Forall₂.cons hpe (ih cs2 hpl)

/-- C10 witness: the pointwise correspondence on a concrete listing with a
blank line in the middle. -/
theorem parse_lines_one_per_line_witness :
    List.Forall₂ (fun l c => _parse_line l (("/r").toList) = Except.ok c)
      (([((" M a").toList), (("").toList), (("?? b").toList)]).filter
        (fun l => !isBlank l))
      ((parse_lines [((" M a").toList), (("").toList), (("?? b").toList)]
        (("/r").toList)).toOption.getD []) :=
  parse_lines_one_per_line _ _ _ rfl

lemma shlexMeta_split (c : Char) (h : (!isShlexMeta c) = true) :
    isShWS c = false ∧ ¬(c = '\\') ∧ ¬(c = '\'' ∨ c = '"') := by
  have hc2 : isShlexMeta c = false := by rwa [Bool.not_eq_true'] at h
  simp only [isShlexMeta, Bool.or_eq_false_iff, beq_eq_false_iff_ne] at hc2
  refine ⟨hc2.1.1.1, hc2.1.1.2, ?_⟩
  rintro (h1 | h1)
  · exact hc2.1.2 h1
  · exact hc2.2 h1

lemma shlexAux_word_clean :
    ∀ (w tok : Str) (quoted : Bool),
      w.all (fun c => !isShlexMeta c) = true →
      (tok = [] ∧ quoted = false → w ≠ []) →
      shlexAux ShlexState.word tok quoted w = Except.ok [tok ++ w] := by
  intro w
  induction w with
  | nil =>
    intro tok quoted _ hne
    have h2 : ¬(tok = [] ∧ quoted = false) := fun h => (hne h) rfl
    simp [shlexAux, h2]
  | cons c rest ih =>
    intro tok quoted hall hne
    simp only [List.all_cons, Bool.and_eq_true] at hall
    obtain ⟨hws, hbs, hqq⟩ := shlexMeta_split c hall.1
    have hstep : shlexAux ShlexState.word tok quoted (c :: rest)
        = shlexAux ShlexState.word (tok ++ [c]) quoted rest := by
      simp [shlexAux, hws, hbs, hqq]
    rw [hstep, ih (tok ++ [c]) quoted hall.2 (fun h => absurd h.1 (by simp))]
    simp

lemma shlexAux_ws_clean (w : Str)
    (hall : w.all (fun c => !isShlexMeta c) = true) (hne : w ≠ []) :
    shlexAux ShlexState.ws [] false w = Except.ok [w] := by
  match w with
  | [] => exact absurd rfl hne
  | c :: rest =>
    simp only [List.all_cons, Bool.and_eq_true] at hall
    obtain ⟨hws, hbs, hqq⟩ := shlexMeta_split c hall.1
    have hstep : shlexAux ShlexState.ws [] false (c :: rest)
        = shlexAux ShlexState.word [c] false rest := by
      simp [shlexAux, hws, hbs, hqq]
    rw [hstep, shlexAux_word_clean rest [c] false hall.2
      (fun h => absurd h.1 (by simp))]
    simp

lemma shlex_split_git_reset (w : Str) (h0 : w ≠ [])
    (hcl : w.all (fun c => !isShlexMeta c) = true) :
    shlex_split ((("git reset HEAD -- ").toList) ++ w)
      = Except.ok [("git").toList, ("reset").toList, ("HEAD").toList,
          ("--").toList, w] := by
  have s1 : shlex_split ((("git reset HEAD -- ").toList) ++ w)
      = (match shlexAux ShlexState.ws [] false ((("reset HEAD -- ").toList) ++ w) with
         | Except.error e => Except.error e
         | Except.ok toks => Except.ok (("git").toList :: toks)) := rfl
  have s2 : shlexAux ShlexState.ws [] false ((("reset HEAD -- ").toList) ++ w)
      = (match shlexAux ShlexState.ws [] false ((("HEAD -- ").toList) ++ w) with
         | Except.error e => Except.error e
         | Except.ok toks => Except.ok (("reset").toList :: toks)) := rfl
  have s3 : shlexAux ShlexState.ws [] false ((("HEAD -- ").toList) ++ w)
      = (match shlexAux ShlexState.ws [] false ((("-- ").toList) ++ w) with
         | Except.error e => Except.error e
         | Except.ok toks => Except.ok (("HEAD").toList :: toks)) := rfl
  have s4 : shlexAux ShlexState.ws [] false ((("-- ").toList) ++ w)
      = (match shlexAux ShlexState.ws [] false w with
         | Except.error e => Except.error e
         | Except.ok toks => Except.ok (("--").toList :: toks)) := rfl
  rw [s1, s2, s3, s4, shlexAux_ws_clean w hcl h0]

lemma shlex_split_git_checkout (w : Str) (h0 : w ≠ [])
    (hcl : w.all (fun c => !isShlexMeta c) = true) :
    shlex_split ((("git checkout -- ").toList) ++ w)
      = Except.ok [("git").toList, ("checkout").toList, ("--").toList, w] := by
  have s1 : shlex_split ((("git checkout -- ").toList) ++ w)
      = (match shlexAux ShlexState.ws [] false ((("checkout -- ").toList) ++ w) with
         | Except.error e => Except.error e
         | Except.ok toks => Except.ok (("git").toList :: toks)) := rfl
  have s2 : shlexAux ShlexState.ws [] false ((("checkout -- ").toList) ++ w)
      = (match shlexAux ShlexState.ws [] false ((("-- ").toList) ++ w) with
         | Except.error e => Except.error e
         | Except.ok toks => Except.ok (("checkout").toList :: toks)) := rfl
  have s3 : shlexAux ShlexState.ws [] false ((("-- ").toList) ++ w)
      = (match shlexAux ShlexState.ws [] false w with
         | Except.error e => Except.error e
         | Except.ok toks => Except.ok (("--").toList :: toks)) := rfl
  rw [s1, s2, s3, shlexAux_ws_clean w hcl h0]

lemma splitOnSlash_no_slash :
    ∀ (s piece : Str), piece ∈ splitOnSlash s → '/' ∉ piece := by
  intro s
  induction s with
  | nil =>
    intro piece h
    simp only [splitOnSlash, List.mem_singleton] at h
    subst h
    simp
  | cons c rest ih =>
    intro piece h
    by_cases hc : c = '/'
    · simp only [splitOnSlash, hc, if_true, List.mem_cons] at h
      rcases h with rfl | h2
      · simp
      · exact ih piece h2
    · simp only [splitOnSlash, hc, if_false] at h
      cases hs : splitOnSlash rest with
      | nil =>
        rw [hs] at h
        simp only [List.mem_singleton] at h
        subst h
        simp only [List.mem_singleton]
        exact fun hmem => hc hmem.symm
      | cons p ps =>
        rw [hs] at h
        simp only [List.mem_cons] at h
        rcases h with rfl | h2
        · intro hmem
          rcases List.mem_cons.mp hmem with rfl | hmem2
          · exact hc rfl
          · exact ih p (by rw [hs]; exact List.mem_cons_self p ps) hmem2
        · exact ih piece (by rw [hs]; exact List.mem_cons_of_mem p h2)

lemma foldl_normStep_good :
    ∀ (l : List Str) (acc : List Str),
      (∀ x ∈ acc, x ≠ [] ∧ '/' ∉ x) → (∀ piece ∈ l, '/' ∉ piece) →
      ∀ x ∈ l.foldl normStep acc, x ≠ [] ∧ '/' ∉ x := by
  intro l
  induction l with
  | nil => intro acc hacc _ x hx; exact hacc x hx
  | cons c rest ih =>
    intro acc hacc hl x hx
    simp only [List.foldl_cons] at hx
    refine ih (normStep acc c) ?_ (fun p hp => hl p (List.mem_cons_of_mem _ hp)) x hx
    intro y hy
    unfold normStep at hy
    by_cases h1 : c = [] ∨ c = ['.']
    · rw [if_pos h1] at hy
      exact hacc y hy
    · rw [if_neg h1] at hy
      by_cases h2 : c = ['.', '.']
      · rw [if_pos h2] at hy
        exact hacc y ((List.dropLast_sublist acc).subset hy)
      · rw [if_neg h2] at hy
        rcases List.mem_append.mp hy with hy1 | hy2
        · exact hacc y hy1
        · simp only [List.mem_singleton] at hy2
          subst hy2
          exact ⟨fun hnil => h1 (Or.inl hnil), hl _ (List.mem_cons_self _ _)⟩

lemma normComps_good (s : Str) : ∀ x ∈ normComps s, x ≠ [] ∧ '/' ∉ x := by
  intro x hx
  exact foldl_normStep_good (splitOnSlash s) [] (by simp)
    (fun p hp => splitOnSlash_no_slash s p hp) x hx

lemma strIntercalate_head_ne_slash (l : List Str)
    (hl : ∀ x ∈ l, x ≠ [] ∧ '/' ∉ x) :
    (strIntercalate '/' l).head? ≠ some '/' := by
  match l with
  | [] => simp [strIntercalate]
  | [x] =>
    have hx := hl x (List.mem_singleton_self x)
    simp only [strIntercalate]
    cases x with
    | nil => exact absurd rfl hx.1
    | cons hd tl =>
      simp only [List.head?_cons, Option.some.injEq]
      intro hcontra
      have heq : hd = '/' := Option.some.inj hcontra
      subst heq
      exact hx.2 (List.mem_cons_self '/' tl)
  | x :: y :: rest =>
    have hx := hl x (List.mem_cons_self x (y :: rest))
    simp only [strIntercalate]
    cases x with
    | nil => exact absurd rfl hx.1
    | cons hd tl =>
      simp only [List.cons_append, List.head?_cons, Option.some.injEq]
      intro hcontra
      have heq : hd = '/' := Option.some.inj hcontra
      subst heq
      exact hx.2 (List.mem_cons_self '/' tl)

lemma strIntercalate_ne_nil (l : List Str) (hne : l ≠ [])
    (hl : ∀ x ∈ l, x ≠ []) : strIntercalate '/' l ≠ [] := by
  match l with
  | [] => exact absurd rfl hne
  | [x] => simpa [strIntercalate] using hl x (List.mem_singleton_self x)
  | x :: y :: rest =>
    have hx := hl x (List.mem_cons_self x (y :: rest))
    simp only [strIntercalate]
    intro hc
    exact hx (List.append_eq_nil.mp hc).1

lemma relpath_head_ne_slash (path start : Str) :
    (pyRelpath path start).head? ≠ some '/' := by
  unfold pyRelpath
  dsimp only
  split_ifs with h
  · simp
  · apply strIntercalate_head_ne_slash
    intro x hx
    rcases List.mem_append.mp hx with h1 | h2
    · have hxe := List.eq_of_mem_replicate h1
      subst hxe
      exact ⟨by simp, by decide⟩
    · exact normComps_good path x (List.mem_of_mem_drop h2)

lemma relpath_ne_nil (path start : Str) : pyRelpath path start ≠ [] := by
  unfold pyRelpath
  dsimp only
  split_ifs with h
  · simp
  · refine strIntercalate_ne_nil _ h ?_
    intro x hx
    rcases List.mem_append.mp hx with h1 | h2
    · have hxe := List.eq_of_mem_replicate h1
      subst hxe
      simp
    · exact (normComps_good path x (List.mem_of_mem_drop h2)).1

/-- C2: the per-target reset dispatch decision table.  For a target that is
both staged and tree-modified the user is prompted, and only the answers c
and r run a git command (`git checkout -- <path>` resp.
`git reset HEAD -- <path>`, each obtained by shlex-splitting the
concatenated command string, whose failure raises instead of running
anything); staged-only runs `git reset HEAD -- <path>`; tree-modified-only
runs `git checkout -- <path>`; an untracked target (neither flag) is
deleted from disk via the probed removal strategy.  The four cases cover
all flag combinations, so no other branch is reachable.  The final
conjunct resolves the git argument vectors explicitly: for a relative path
free of shlex metacharacters the split always succeeds and yields the
command words followed by the path. -/
theorem action_reset_dispatch_table (remove : RemoveMode) (cwd resp : Str)
    (t : Candidate) :
    (t.source__staged = true → t.source__tree = true →
      action_reset_target remove cwd resp t =
        (if resp = ("c").toList then
          match shlex_split (("git checkout -- ").toList ++
              pyRelpath t.action__path t.source__root) with
          | Except.error e =>
            ([Effect.prompt (("Select action reset or checkout [r/c]").toList)],
              some e)
          | Except.ok args =>
            ([Effect.prompt (("Select action reset or checkout [r/c]").toList),
              Effect.runCmd args t.source__root,
              Effect.vimCommand (("checktime").toList)], none)
        else if resp = ("r").toList then
          match shlex_split (("git reset HEAD -- ").toList ++
              pyRelpath t.action__path t.source__root) with
          | Except.error e =>
            ([Effect.prompt (("Select action reset or checkout [r/c]").toList)],
              some e)
          | Except.ok args =>
            ([Effect.prompt (("Select action reset or checkout [r/c]").toList),
              Effect.runCmd args t.source__root,
              Effect.vimCommand (("checktime").toList)], none)
        else
          ([Effect.prompt (("Select action reset or checkout [r/c]").toList),
            Effect.vimCommand (("checktime").toList)], none))) ∧
    (t.source__staged = true → t.source__tree = false →
      action_reset_target remove cwd resp t =
        (match shlex_split (("git reset HEAD -- ").toList ++
            pyRelpath t.action__path t.source__root) with
         | Except.error e => ([], some e)
         | Except.ok args =>
           ([Effect.runCmd args t.source__root,
             Effect.vimCommand (("checktime").toList)], none))) ∧
    (t.source__staged = false → t.source__tree = true →
      action_reset_target remove cwd resp t =
        (match shlex_split (("git checkout -- ").toList ++
            pyRelpath t.action__path t.source__root) with
         | Except.error e => ([], some e)
         | Except.ok args =>
           ([Effect.runCmd args t.source__root,
             Effect.vimCommand (("checktime").toList)], none))) ∧
    (t.source__staged = false → t.source__tree = false →
      action_reset_target remove cwd resp t =
        ((match remove with
          | RemoveMode.rm =>
            Effect.vimCommand (("Rm ").toList ++ pyRelpath t.action__path cwd)
          | RemoveMode.rmtrash =>
            Effect.runCmd [("rmtrash").toList, t.action__path] t.source__root
          | RemoveMode.delete => Effect.vimDelete t.action__path)
         :: [Effect.vimCommand (("checktime").toList)], none)) ∧
    ((pyRelpath t.action__path t.source__root).all
        (fun c => !isShlexMeta c) = true →
      (t.source__staged = true → t.source__tree = false →
        action_reset_target remove cwd resp t =
          ([Effect.runCmd [("git").toList, ("reset").toList, ("HEAD").toList,
              ("--").toList, pyRelpath t.action__path t.source__root]
              t.source__root,
            Effect.vimCommand (("checktime").toList)], none)) ∧
      (t.source__staged = false → t.source__tree = true →
        action_reset_target remove cwd resp t =
          ([Effect.runCmd [("git").toList, ("checkout").toList, ("--").toList,
              pyRelpath t.action__path t.source__root] t.source__root,
            Effect.vimCommand (("checktime").toList)], none)) ∧
      (t.source__staged = true → t.source__tree = true → resp = ("r").toList →
        action_reset_target remove cwd resp t =
          ([Effect.prompt (("Select action reset or checkout [r/c]").toList),
            Effect.runCmd [("git").toList, ("reset").toList, ("HEAD").toList,
              ("--").toList, pyRelpath t.action__path t.source__root]
              t.source__root,
            Effect.vimCommand (("checktime").toList)], none)) ∧
      (t.source__staged = true → t.source__tree = true → resp = ("c").toList →
        action_reset_target remove cwd resp t =
          ([Effect.prompt (("Select action reset or checkout [r/c]").toList),
            Effect.runCmd [("git").toList, ("checkout").toList, ("--").toList,
              pyRelpath t.action__path t.source__root] t.source__root,
            Effect.vimCommand (("checktime").toList)], none))) := by
  refine ⟨?_, ?_, ?_, ?_, ?_⟩
  · intro hs ht
    simp [action_reset_target, hs, ht]
  · intro hs ht
    simp [action_reset_target, hs, ht]
  · intro hs ht
    simp [action_reset_target, hs, ht]
  · intro hs ht
    simp [action_reset_target, hs, ht]
  · intro hcl
    have hne := relpath_ne_nil t.action__path t.source__root
    have hre := shlex_split_git_reset
      (pyRelpath t.action__path t.source__root) hne hcl
    have hco := shlex_split_git_checkout
      (pyRelpath t.action__path t.source__root) hne hcl
    simp at hre hco
    refine ⟨?_, ?_, ?_, ?_⟩
    · intro hs ht
      simp [action_reset_target, hs, ht, hre]
    · intro hs ht
      simp [action_reset_target, hs, ht, hco]
    · intro hs ht hresp
      subst hresp
      simp [action_reset_target, hs, ht, hre]
    · intro hs ht hresp
      subst hresp
      simp [action_reset_target, hs, ht, hco]

/-- Concrete staged-only target used by the dispatch-table witness. -/
def candC2 : Candidate :=
  { word := [],
    action__path := ("/repo/a.txt").toList,
    source__root := ("/repo").toList,
    source__staged := true,
    source__tree := false }

/-- C2 witness: the dispatch evaluated for a staged-only target whose
relative path is free of shlex metacharacters. -/
theorem action_reset_dispatch_table_witness :
    action_reset_target RemoveMode.delete (("/repo").toList) (("").toList)
      candC2 =
      ([Effect.runCmd [("git").toList, ("reset").toList, ("HEAD").toList,
          ("--").toList, pyRelpath candC2.action__path candC2.source__root]
          candC2.source__root,
        Effect.vimCommand (("checktime").toList)], none) :=
  ((action_reset_dispatch_table RemoveMode.delete (("/repo").toList)
    (("").toList) candC2).2.2.2.2 (by decide)).1 rfl rfl

/-- C7: for an ambiguous target (staged and tree-modified), any prompt
response other than r or c produces no external command, no deletion and no
error: only the prompt itself and the editor checktime refresh happen, so
the repository is untouched and the target is skipped. -/
theorem action_reset_ambiguous_other_response (remove : RemoveMode)
    (cwd resp : Str) (t : Candidate)
    (hs : t.source__staged = true) (ht : t.source__tree = true)
    (hr : resp ≠ ("r").toList) (hc : resp ≠ ("c").toList) :
    action_reset_target remove cwd resp t =
      ([Effect.prompt (("Select action reset or checkout [r/c]").toList),
        Effect.vimCommand (("checktime").toList)], none) := by
  simp only [String.toList] at hr hc
  simp [action_reset_target, hs, ht, hr, hc]

/-- Concrete doubly-modified target used by the skipped-response witness. -/
def candC7 : Candidate :=
  { word := [],
    action__path := ("/repo/b").toList,
    source__root := ("/repo").toList,
    source__staged := true,
    source__tree := true }

/-- C7 witness: the no-op on the concrete response "x". -/
theorem action_reset_ambiguous_other_response_witness :
    action_reset_target RemoveMode.delete (("/repo").toList) (("x").toList)
      candC7 =
      ([Effect.prompt (("Select action reset or checkout [r/c]").toList),
        Effect.vimCommand (("checktime").toList)], none) :=
  action_reset_ambiguous_other_response RemoveMode.delete (("/repo").toList)
    (("x").toList) candC7 rfl rfl (by decide) (by decide)

/-- C9: the path arguments placed in git argument vectors are root-relative
and never absolute.  The add and patch actions pass each candidate path
made relative to the (shared) root as one argument; the reset and checkout
commands are obtained by shlex-splitting a concatenated command string, so
their git argument vector ends in the root-relative path whenever that path
is free of shlex metacharacters; relpath output never begins with a slash,
hence is never the absolute path.  The last two conjuncts record how shlex
treats metacharacter paths: a quote raises ValueError and a backslash is
stripped. -/
theorem git_paths_are_root_relative :
    (∀ path start : Str, (pyRelpath path start).head? ≠ some '/') ∧
    (∀ path start : Str, path.head? = some '/' → pyRelpath path start ≠ path) ∧
    (∀ (t0 : Candidate) (rest : List Candidate) (root : Str),
      (∀ t ∈ t0 :: rest, t.source__root = root) →
      action_add (t0 :: rest) = some [Effect.runCmd
        (("git").toList :: ("add").toList ::
          (t0 :: rest).map (fun t => pyRelpath t.action__path t.source__root))
        root]) ∧
    (∀ (t0 : Candidate) (rest : List Candidate) (root : Str),
      (∀ t ∈ t0 :: rest, t.source__root = root) →
      action_patch (t0 :: rest) = some [Effect.vimCommand
        (("terminal git add ").toList ++
          strIntercalate ' '
            ((t0 :: rest).map (fun t => pyRelpath t.action__path t.source__root))
          ++ (" --patch").toList)]) ∧
    (∀ (remove : RemoveMode) (cwd resp : Str) (t : Candidate)
      (args : List Str) (c : Str),
      (pyRelpath t.action__path t.source__root).all
        (fun ch => !isShlexMeta ch) = true →
      Effect.runCmd args c ∈ (action_reset_target remove cwd resp t).1 →
      args.head? = some (("git").toList) →
      args.getLast? = some (pyRelpath t.action__path t.source__root)) ∧
    (shlex_split ((("git reset HEAD -- ").toList) ++
        (("don").toList ++ '\'' :: ((".txt").toList)))
      = Except.error PyErr.valueError) ∧
    (shlex_split ((("git reset HEAD -- ").toList) ++
        (("a").toList ++ '\\' :: (("b").toList)))
      = Except.ok [("git").toList, ("reset").toList, ("HEAD").toList,
          ("--").toList, ("ab").toList]) := by
  refine ⟨relpath_head_ne_slash, ?_, ?_, ?_, ?_, rfl, rfl⟩
  · intro path start hhead heq
    apply relpath_head_ne_slash path start
    rw [heq]
    exact hhead
  · intro t0 rest root hroot
    have h0 : t0.source__root = root := hroot t0 (List.mem_cons_self t0 rest)
    have hmap : (t0 :: rest).map (fun t => pyRelpath t.action__path t0.source__root)
        = (t0 :: rest).map (fun t => pyRelpath t.action__path t.source__root) := by
      apply List.map_congr_left
      intro a ha
      rw [hroot a ha, h0]
    unfold action_add
    dsimp only
    rw [hmap, h0]
  · intro t0 rest root hroot
    have h0 : t0.source__root = root := hroot t0 (List.mem_cons_self t0 rest)
    have hmap : (t0 :: rest).map (fun t => pyRelpath t.action__path t0.source__root)
        = (t0 :: rest).map (fun t => pyRelpath t.action__path t.source__root) := by
      apply List.map_congr_left
      intro a ha
      rw [hroot a ha, h0]
    unfold action_patch
    dsimp only
    rw [hmap]
  · intro remove cwd resp t args c hws hmem hhead
    have hne := relpath_ne_nil t.action__path t.source__root
    have hco := shlex_split_git_checkout
      (pyRelpath t.action__path t.source__root) hne hws
    have hre := shlex_split_git_reset
      (pyRelpath t.action__path t.source__root) hne hws
    simp at hco hre
    cases hs : t.source__staged <;> cases ht : t.source__tree
    · cases remove with
      | rm => simp [action_reset_target, hs, ht] at hmem
      | rmtrash =>
        simp [action_reset_target, hs, ht] at hmem
        rw [hmem.1] at hhead
        simp at hhead
      | delete => simp [action_reset_target, hs, ht] at hmem
    · simp [action_reset_target, hs, ht, hco] at hmem
      rw [hmem.1]
      rfl
    · simp [action_reset_target, hs, ht, hre] at hmem
      rw [hmem.1]
      rfl
    · by_cases hrc : resp = ("c").toList
      all_goals simp only [String.toList] at hrc
      · simp [action_reset_target, hs, ht, hrc, hco] at hmem
        rw [hmem.1]
        rfl
      · by_cases hrr : resp = ("r").toList
        all_goals simp only [String.toList] at hrr
        · simp [action_reset_target, hs, ht, hrc, hrr, hre] at hmem
          rw [hmem.1]
          rfl
        · simp [action_reset_target, hs, ht, hrc, hrr] at hmem

/-- Concrete target used by the relative-path witness. -/
def candC9 : Candidate :=
  { word := [],
    action__path := ("/repo/x/y.txt").toList,
    source__root := ("/repo").toList,
    source__staged := true,
    source__tree := false }

/-- C9 witness: a concrete single-target add invocation and the
non-absoluteness of its relative path argument. -/
theorem git_paths_are_root_relative_witness :
    action_add [candC9] =
      some [Effect.runCmd
        (("git").toList :: ("add").toList ::
          ([candC9]).map (fun t => pyRelpath t.action__path t.source__root))
        (("/repo").toList)] ∧
    (pyRelpath (("/repo/x/y.txt").toList) (("/repo").toList)).head? ≠ some '/' :=
  ⟨git_paths_are_root_relative.2.2.1 candC9 [] (("/repo").toList) (by decide),
   git_paths_are_root_relative.1 (("/repo/x/y.txt").toList) (("/repo").toList)⟩

/-- Concrete target whose filename contains a space, used to refute the
universal form of the relative-path claim for the reset action. -/
def candC9s : Candidate :=
  { word := [],
    action__path := ("/repo/my file.txt").toList,
    source__root := ("/repo").toList,
    source__staged := true,
    source__tree := false }

/-- C9 counterexample: for a staged-only target whose root-relative path is
"my file.txt", the reset argument vector is built by shlex-splitting the
concatenated command string, so the argv contains the fragments "my" and
"file.txt" and the root-relative path is not among its arguments. -/
theorem git_paths_space_counterexample :
    action_reset_target RemoveMode.delete (("/repo").toList) ([]) candC9s =
      ([Effect.runCmd [("git").toList, ("reset").toList, ("HEAD").toList,
          ("--").toList, ("my").toList, ("file.txt").toList] (("/repo").toList),
        Effect.vimCommand (("checktime").toList)], none) ∧
    pyRelpath candC9s.action__path candC9s.source__root = ("my file.txt").toList ∧
    (("my file.txt").toList) ∉
      [("git").toList, ("reset").toList, ("HEAD").toList,
       ("--").toList, ("my").toList, ("file.txt").toList] :=
  ⟨rfl, by decide, by decide⟩

end DeniteGit
